import Mathlib

/-!
Verification development for the obsidian-asciidoc-exporter repository.

The markdown-to-AsciiDoc conversion pipeline (class `VaultExporter`), the
export orchestrator, and the HTTP protocol layer (`HttpExportServer`) are
embedded shallowly.  Strings are modelled by Lean `String`/`List Char`;
JavaScript regular-expression replacement loops are embedded as explicit
left-to-right scanners over `List Char`, with a `Nat` fuel argument used
purely as a structural-termination device (the fuel strictly exceeds the
number of characters left, and every step consumes at least one character,
so the `0` case is never reached from the top-level entry points).

JavaScript string methods are modelled as follows:
* `String.prototype.trim` / the regex class `\s` use the ECMAScript
  WhiteSpace/LineTerminator set (`jsWS` below);
* `String.prototype.replace(string, string)` replaces the first occurrence
  (`jsReplaceFirst`);
* `split(c)`/`join(sep)` are `splitChar`/`joinWith`, kernel-reducible
  helpers that agree with the JavaScript semantics on these inputs;
* `toLowerCase`/`toUpperCase` are modelled on the ASCII range (`jsToLower`,
  `jsToUpper`), the range exercised by the repository and its
  specification.

External collaborators (host storage reads, the renderer registry,
`JSON.parse`, base64 transcoding, the clock) are passed as explicit
function parameters, mirroring the specification's capability ports.
-/

namespace ObsAdoc

/-- ECMAScript WhiteSpace + LineTerminator characters (what `\s` and
`String.prototype.trim` use). -/
def jsWS (c : Char) : Bool :=
  c = ' ' || c = '\t' || c = '\n' || c = '\r' ||
  c = Char.ofNat 11 || c = Char.ofNat 12 ||
  c = Char.ofNat 0xa0 || c = Char.ofNat 0x1680 ||
  (0x2000 ≤ c.toNat && c.toNat ≤ 0x200a) ||
  c = Char.ofNat 0x2028 || c = Char.ofNat 0x2029 ||
  c = Char.ofNat 0x202f || c = Char.ofNat 0x205f ||
  c = Char.ofNat 0x3000 || c = Char.ofNat 0xfeff

/-- `trim()` on a character list: drop JS whitespace from both ends. -/
def jsTrimL (cs : List Char) : List Char :=
  ((cs.dropWhile jsWS).reverse.dropWhile jsWS).reverse

/-- JavaScript `String.prototype.trim`. -/
def jsTrim (s : String) : String := ⟨jsTrimL s.data⟩

/-- Replace the first occurrence of `pat` (JavaScript
`String.prototype.replace` with a plain-string pattern). -/
def jsReplaceFirstL (pat rep : List Char) : List Char → List Char
  | [] => if pat = [] then rep else []
  | c :: cs =>
    if pat.isPrefixOf (c :: cs) then rep ++ (c :: cs).drop pat.length
    else c :: jsReplaceFirstL pat rep cs

/-- JavaScript `s.replace(pat, rep)` for plain-string `pat`. -/
def jsReplaceFirst (s pat rep : String) : String :=
  ⟨jsReplaceFirstL pat.data rep.data s.data⟩

/-- ASCII `toLowerCase` on a character. -/
def jsToLowerChar (c : Char) : Char :=
  if 'A' ≤ c ∧ c ≤ 'Z' then Char.ofNat (c.toNat + 32) else c

/-- ASCII `toLowerCase` on a string. -/
def jsToLower (s : String) : String := ⟨s.data.map jsToLowerChar⟩

/-- Does `pat` occur as a contiguous substring? -/
def containsSubL (pat : List Char) : List Char → Bool
  | [] => pat = []
  | c :: cs => pat.isPrefixOf (c :: cs) || containsSubL pat cs

def containsSub (s pat : String) : Bool := containsSubL pat.data s.data

/-- `String.prototype.startsWith` (kernel-reducible form). -/
def strStartsWith (s p : String) : Bool := p.data.isPrefixOf s.data

/-- `String.prototype.endsWith` (kernel-reducible form). -/
def strEndsWith (s p : String) : Bool := p.data.reverse.isPrefixOf s.data.reverse

/-- `split(sep)` for a one-character separator (JavaScript semantics:
`"".split(sep) = [""]`). -/
def splitCharGo (sep : Char) (acc : List Char) : List Char → List String
  | [] => [String.mk acc.reverse]
  | c :: cs =>
    if c = sep then String.mk acc.reverse :: splitCharGo sep [] cs
    else splitCharGo sep (c :: acc) cs

def splitChar (sep : Char) (s : String) : List String := splitCharGo sep [] s.data

/-- `join(sep)` (JavaScript `Array.prototype.join`). -/
def joinWith (sep : String) : List String → String
  | [] => ""
  | [a] => a
  | a :: b :: rest => a ++ sep ++ joinWith sep (b :: rest)

/-! ## Table conversion (`convertTables`, `convertTableToAsciiDoc`)

Source, `VaultExporter.convertTables`: lines whose `trim()` starts and ends
with a pipe are buffered as table rows; the `else if` branch testing
`/^\|[\s\-:]+\|$/` is reproduced verbatim (note that any line matching that
regex also starts and ends with a pipe, so the first branch captures it
first). -/

/-- A character allowed in the body of the separator-row regex
`/^\|[\s\-:]+\|$/`. -/
def sepBodyChar (c : Char) : Bool := jsWS c || c = '-' || c = ':'

/-- `line.trim().startsWith('|') && line.trim().endsWith('|')`. -/
def isTableRowLine (line : String) : Bool :=
  strStartsWith (jsTrim line) "|" && strEndsWith (jsTrim line) "|"

/-- `line.trim().match(/^\|[\s\-:]+\|$/)` (as a Boolean test). -/
def isTableSepLine (line : String) : Bool :=
  match (jsTrim line).data with
  | '|' :: rest =>
    (rest.getLast? == some '|') && !rest.dropLast.isEmpty && rest.dropLast.all sepBodyChar
  | _ => false

/-- `row.trim().slice(1, -1).split('|').map(cell => cell.trim())`. -/
def parseTableRow (row : String) : List String :=
  (splitChar '|' (String.mk (((jsTrim row).data.drop 1).dropLast))).map jsTrim

/-- `'1,'.repeat(n).slice(0, -1)`. -/
def colsSpec (n : Nat) : String :=
  String.mk ((List.replicate n "1,".data).flatten.dropLast)

/-- One emitted table row: header cells are wrapped in `*`, body cells are
emitted bare; cells are joined by a single space (source
`convertTableToAsciiDoc` loop body). -/
def tableRowOut (header : Bool) (cells : List String) : String :=
  joinWith " " (cells.map (fun c =>
    if header then "|*" ++ c ++ "*" else "|" ++ c)) ++ "\n"

/-- `VaultExporter.convertTableToAsciiDoc`. -/
def convertTableToAsciiDoc (tableRows : List String) : String :=
  match tableRows.map parseTableRow with
  | [] => ""
  | r0 :: rest =>
    "[cols=\"" ++ colsSpec r0.length ++ "\"]\n|===\n" ++
    tableRowOut true r0 ++ joinWith "" (rest.map (tableRowOut false)) ++
    "|===\n"

/-- The line loop of `VaultExporter.convertTables`, carrying the
`inTable`/`tableRows` state. -/
def convertTablesGo : Bool → List String → List String → List String
  | inTable, tableRows, [] =>
    if inTable && !tableRows.isEmpty then [convertTableToAsciiDoc tableRows] else []
  | inTable, tableRows, line :: rest =>
    if isTableRowLine line then
      convertTablesGo true ((if inTable then tableRows else []) ++ [line]) rest
    else if inTable && isTableSepLine line then
      convertTablesGo inTable tableRows rest
    else if inTable then
      convertTableToAsciiDoc tableRows :: line :: convertTablesGo false [] rest
    else
      line :: convertTablesGo false [] rest

/-- `VaultExporter.convertTables`. -/
def convertTables (content : String) : String :=
  joinWith "\n" (convertTablesGo false [] (splitChar '\n' content))

/-! ## Emphasis (`convertEmphasis`)

Source: three sequential global regex replacements,
`/\*\*([^*]+)\*\*/g → *$1*`, then `/(?<!\*)\*([^*]+)\*(?!\*)/g → _$1_`,
then `/__([^_]+)__/g → *$1*`.  Each is embedded as a left-to-right scanner;
on a failed match attempt the scanner advances one character, exactly as
the regex engine does.  The second scanner carries the previous character
of its input for the look-behind. -/

/-- Pass 1: `content.replace(/\*\*([^*]+)\*\*/g, '*$1*')`. -/
def emphBoldStarGo : Nat → List Char → List Char
  | 0, cs => cs
  | _ + 1, [] => []
  | fuel + 1, c :: t =>
    match (if c = '*' then some t else none) with
    | some t₀ =>
      match t₀ with
      | c₂ :: t₂ =>
        if c₂ = '*' then
          let b := t₂.takeWhile (fun x => x ≠ '*')
          match b, t₂.drop b.length with
          | _ :: _, x :: y :: r₂ =>
            if x = '*' ∧ y = '*' then
              '*' :: b ++ '*' :: emphBoldStarGo fuel r₂
            else c :: emphBoldStarGo fuel t
          | _, _ => c :: emphBoldStarGo fuel t
        else c :: emphBoldStarGo fuel t
      | [] => c :: emphBoldStarGo fuel t
    | none => c :: emphBoldStarGo fuel t

/-- Pass 2: `content.replace(/(?<!\*)\*([^*]+)\*(?!\*)/g, '_$1_')`; the
`prev` argument is the character preceding the scan position in the pass's
input (for the look-behind `(?<!\*)`). -/
def emphItalGo : Nat → Option Char → List Char → List Char
  | 0, _, cs => cs
  | _ + 1, _, [] => []
  | fuel + 1, prev, c :: t =>
    if c = '*' ∧ prev ≠ some '*' then
      let b := t.takeWhile (fun x => x ≠ '*')
      match b, t.drop b.length with
      | _ :: _, '*' :: r₂ =>
        match r₂ with
        | '*' :: _ => c :: emphItalGo fuel (some c) t
        | _ => '_' :: b ++ '_' :: emphItalGo fuel (some '*') r₂
      | _, _ => c :: emphItalGo fuel (some c) t
    else c :: emphItalGo fuel (some c) t

/-- Pass 3: `content.replace(/__([^_]+)__/g, '*$1*')`. -/
def emphBoldUnderGo : Nat → List Char → List Char
  | 0, cs => cs
  | _ + 1, [] => []
  | fuel + 1, c :: t =>
    match (if c = '_' then some t else none) with
    | some t₀ =>
      match t₀ with
      | c₂ :: t₂ =>
        if c₂ = '_' then
          let b := t₂.takeWhile (fun x => x ≠ '_')
          match b, t₂.drop b.length with
          | _ :: _, x :: y :: r₂ =>
            if x = '_' ∧ y = '_' then
              '*' :: b ++ '*' :: emphBoldUnderGo fuel r₂
            else c :: emphBoldUnderGo fuel t
          | _, _ => c :: emphBoldUnderGo fuel t
        else c :: emphBoldUnderGo fuel t
      | [] => c :: emphBoldUnderGo fuel t
    | none => c :: emphBoldUnderGo fuel t

/-- `VaultExporter.convertEmphasis`: the three passes in source order. -/
def convertEmphasis (content : String) : String :=
  let s₁ := emphBoldStarGo (content.data.length + 1) content.data
  let s₂ := emphItalGo (s₁.length + 1) none s₁
  ⟨emphBoldUnderGo (s₂.length + 1) s₂⟩

/-! ## Inline code, blockquotes, horizontal rules (pipeline stage 11)

`convertInlineCode` returns its input unchanged.
`convertBlockquotes` is `content.replace(/^>\s*(.+)$/gm, '____\n$1\n____')`;
`convertHorizontalRules` is
`content.replace(/^(---|\*\*\*|___)\s*$/gm, "'''")`.
Both regexes only match at line starts (`^` with the `m` flag), so the
scanners walk the input line by line; a greedy `\s*`/`\s+` may swallow
newlines, so a single match can span several source lines, which the
match functions account for. -/

/-- `VaultExporter.convertInlineCode` (the identity). -/
def convertInlineCode (content : String) : String := content

/-- The regex atom `.`: any character except a newline. -/
def notNl (c : Char) : Bool := !(c == '\n')

/-- Index of the last character different from a newline, if any. -/
def lastNonNl : List Char → Option Nat
  | [] => none
  | c :: t =>
    match lastNonNl t with
    | some i => some (i + 1)
    | none => if c = '\n' then none else some 0

/-- Match attempt for `>\s*(.+)$` directly after a `>` at a line start:
returns the capture `$1` and the remainder of the input after the match,
or `none`.  The greedy `\s*` keeps the longest whitespace prefix that
leaves a non-newline character for `(.+)`. -/
def bqMatch (t : List Char) : Option (List Char × List Char) :=
  let w := t.takeWhile jsWS
  let k? : Option Nat :=
    if w.length < t.length then some w.length else lastNonNl w
  match k? with
  | none => none
  | some k =>
    let afterK := t.drop k
    let d := afterK.takeWhile notNl
    match d with
    | [] => none
    | _ :: _ => some (d, afterK.drop d.length)

/-- Line loop of `convertBlockquotes` (called at line starts). -/
def bqGo : Nat → List Char → List Char
  | 0, cs => cs
  | _ + 1, [] => []
  | fuel + 1, c :: t =>
    match (if c = '>' then bqMatch t else none) with
    | some (d, rest) =>
      "____\n".data ++ d ++ "\n____".data ++
        (match rest with
         | [] => []
         | r :: rs => r :: bqGo fuel rs)
    | none =>
      let line := (c :: t).takeWhile notNl
      match (c :: t).dropWhile notNl with
      | [] => c :: t
      | r :: rs => line ++ r :: bqGo fuel rs

/-- `VaultExporter.convertBlockquotes`. -/
def convertBlockquotes (content : String) : String :=
  ⟨bqGo (content.data.length + 1) content.data⟩

/-- One of the rule characters of `(---|\*\*\*|___)`. -/
def hrRuleChar (c : Char) : Bool := c = '-' || c = '*' || c = '_'

/-- The apostrophe character (the AsciiDoc rule marker is three of
these). -/
def squote : Char := Char.ofNat 39

/-- Scan of the greedy `\s*$` after a rule: walk the whitespace run,
remembering the suffix at the last newline; the match ends at the end of
the input (if the run reaches it) or at that last newline. -/
def hrEnd (best : Option (List Char)) : List Char → Option (List Char)
  | [] => some []
  | c :: t =>
    if jsWS c then hrEnd (if c = '\n' then some (c :: t) else best) t
    else best

/-- Match attempt for `(---|\*\*\*|___)\s*$` at a line start: returns the
remainder of the input after the match, or `none`. -/
def hrMatch : List Char → Option (List Char)
  | a :: b :: c :: rest =>
    if a = b ∧ b = c ∧ hrRuleChar a = true then hrEnd none rest else none
  | _ => none

/-- Line loop of `convertHorizontalRules` (called at line starts). -/
def hrGo : Nat → List Char → List Char
  | 0, cs => cs
  | _ + 1, [] => []
  | fuel + 1, c :: t =>
    match hrMatch (c :: t) with
    | some rest =>
      squote :: squote :: squote ::
        (match rest with
         | [] => []
         | r :: rs => r :: hrGo fuel rs)
    | none =>
      let line := (c :: t).takeWhile notNl
      match (c :: t).dropWhile notNl with
      | [] => c :: t
      | r :: rs => line ++ r :: hrGo fuel rs

/-- `VaultExporter.convertHorizontalRules`. -/
def convertHorizontalRules (content : String) : String :=
  ⟨hrGo (content.data.length + 1) content.data⟩

/-! ## Obsidian tags (`convertObsidianTags`)

`content.replace(/#([a-zA-Z0-9\-_\/]+)/g, (m, tag) => `[.tag]#${tag}#`)`. -/

/-- The character class `[a-zA-Z0-9\-_\/]`. -/
def isTagChar (c : Char) : Bool :=
  ('a' ≤ c && c ≤ 'z') || ('A' ≤ c && c ≤ 'Z') || ('0' ≤ c && c ≤ '9') ||
  c = '-' || c = '_' || c = '/'

def tagsGo : Nat → List Char → List Char
  | 0, cs => cs
  | _ + 1, [] => []
  | fuel + 1, c :: t =>
    if c = '#' then
      let tag := t.takeWhile isTagChar
      if tag.isEmpty then c :: tagsGo fuel t
      else "[.tag]#".data ++ tag ++ '#' :: tagsGo fuel (t.drop tag.length)
    else c :: tagsGo fuel t

/-- `VaultExporter.convertObsidianTags`. -/
def convertObsidianTags (content : String) : String :=
  ⟨tagsGo (content.data.length + 1) content.data⟩

/-! ## Obsidian callouts (`convertObsidianCallouts`)

A line-scan state machine: a header line matching
`/^>\s*\[!(note|tip|important|warning|caution|example|quote)([+-])?\]\s*(.*?)$/`
opens an admonition; following `>`-lines are consumed as its body. -/

def jsToUpperChar (c : Char) : Char :=
  if 'a' ≤ c ∧ c ≤ 'z' then Char.ofNat (c.toNat - 32) else c

def jsToUpper (s : String) : String := ⟨s.data.map jsToUpperChar⟩

def calloutKinds : List String :=
  ["note", "tip", "important", "warning", "caution", "example", "quote"]

/-- Match the `(kind)([+-])?\]` portion right after `[!`; returns the kind,
the optional collapsible mark and the rest of the line. -/
def calloutAfterBang (rest : List Char) : Option (String × Option Char × List Char) :=
  (calloutKinds.filterMap (fun k =>
    if k.data.isPrefixOf rest then
      match rest.drop k.data.length with
      | ']' :: r2 => some (k, (none : Option Char), r2)
      | '+' :: ']' :: r2 => some (k, some '+', r2)
      | '-' :: ']' :: r2 => some (k, some '-', r2)
      | _ => none
    else none)).head?

/-- The callout-header regex applied to one line (no newline inside):
returns `(kind, collapsibleMark, title)`. -/
def calloutHeader (line : String) : Option (String × Option Char × String) :=
  match line.data with
  | '>' :: t =>
    match t.dropWhile jsWS with
    | '[' :: '!' :: rest =>
      match calloutAfterBang rest with
      | some (k, mark, r2) => some (k, mark, ⟨r2.dropWhile jsWS⟩)
      | none => none
    | _ => none
  | _ => none

/-- `l.replace(/^>\s?/, '')`: strip the quote marker and at most one
whitespace character. -/
def stripQuote (l : String) : String :=
  match l.data with
  | '>' :: c :: t => if jsWS c then ⟨t⟩ else ⟨c :: t⟩
  | '>' :: [] => ""
  | d => ⟨d⟩

/-- The line loop of `convertObsidianCallouts` (fuel counts lines). -/
def calloutsGo : Nat → List String → List String
  | 0, lines => lines
  | _ + 1, [] => []
  | fuel + 1, line :: rest =>
    match calloutHeader line with
    | some (kind, mark, title) =>
      let admonition :=
        "[" ++ jsToUpper kind ++ "]" ++
        (if title ≠ "" then "\n." ++ title else "") ++
        (if mark = some '-' then "\n[%collapsible]" else "") ++
        "\n===="
      let body := rest.takeWhile (fun l => strStartsWith l ">")
      admonition :: (body.map stripQuote ++ ("====" :: calloutsGo fuel (rest.drop body.length)))
    | none => line :: calloutsGo fuel rest

/-- `VaultExporter.convertObsidianCallouts`. -/
def convertObsidianCallouts (content : String) : String :=
  joinWith "\n" (calloutsGo ((splitChar '\n' content).length + 1) (splitChar '\n' content))

/-! ## Embeds and wikilinks (`convertObsidianEmbeds`,
`convertObsidianWikilinks`)

Both use the shape `[[target(|alias)?]]` with `target` from `[^\]|]+` and
`alias` from `[^\]]+`. -/

def notBracketPipe (c : Char) : Bool := !(c == ']') && !(c == '|')

def notBracket (c : Char) : Bool := !(c == ']')

/-- Match `target(|alias)?]]` (the part after the opening brackets):
returns `(target, alias?, rest)`. -/
def wikiInner (t : List Char) : Option (List Char × Option (List Char) × List Char) :=
  let tgt := t.takeWhile notBracketPipe
  match tgt, t.drop tgt.length with
  | [], _ => none
  | _ :: _, '|' :: r1 =>
    let ali := r1.takeWhile notBracket
    match ali, r1.drop ali.length with
    | _ :: _, ']' :: ']' :: r2 => some (tgt, some ali, r2)
    | _, _ => none
  | _ :: _, ']' :: ']' :: r2 => some (tgt, none, r2)
  | _, _ => none

def imageExtensions : List String :=
  [".png", ".jpg", ".jpeg", ".gif", ".svg", ".webp", ".bmp"]

/-- `imageExtensions.some(ext => filename.toLowerCase().endsWith(ext))`. -/
def isImageFilename (filename : String) : Bool :=
  imageExtensions.any (fun ext => strEndsWith (jsToLower filename) ext)

/-- `filename.replace(/\.[^.]+$/, '')`: strip a final dot-extension. -/
def stripLastExt (filename : String) : String :=
  let r := filename.data.reverse
  let run := r.takeWhile (fun c => !(c == '.'))
  match run, r.drop run.length with
  | _ :: _, '.' :: pre => ⟨pre.reverse⟩
  | _, _ => filename

/-- Scanner of `VaultExporter.convertObsidianEmbeds`
(`/!\[\[([^\]|]+)(\|([^\]]+))?\]\]/g`). -/
def embedsGo : Nat → List Char → List Char
  | 0, cs => cs
  | _ + 1, [] => []
  | fuel + 1, c :: t =>
    match (if c = '!' then
             (match t with
              | '[' :: '[' :: r0 => wikiInner r0
              | _ => none)
           else none) with
    | some (tgt, ali, r2) =>
      let filename : String := ⟨tgt⟩
      let repl :=
        if isImageFilename filename then
          let altText := match ali with
            | some a => (⟨a⟩ : String)
            | none => stripLastExt filename
          "image::" ++ filename ++ "[" ++ altText ++ "]"
        else
          let includeFile :=
            if strEndsWith filename ".md" then jsReplaceFirst filename ".md" ".adoc"
            else filename
          "include::" ++ includeFile ++ "[]"
      repl.data ++ embedsGo fuel r2
    | none => c :: embedsGo fuel t

/-- `VaultExporter.convertObsidianEmbeds`. -/
def convertObsidianEmbeds (content : String) : String :=
  ⟨embedsGo (content.data.length + 1) content.data⟩

/-- Second step of the sanitizer (regex: a global dash-run collapsed to a
single dash): drop a dash whose predecessor was a dash. -/
def collapseDashGo : Bool → List Char → List Char
  | _, [] => []
  | prevDash, c :: t =>
    if c = '-' then
      if prevDash then collapseDashGo true t else '-' :: collapseDashGo true t
    else c :: collapseDashGo false t

/-- Third step of the sanitizer, `/^-|-$/g → ''`: one leading and one
trailing dash are removed. -/
def trimDashes (l : List Char) : List Char :=
  let l1 := match l with
    | '-' :: t => t
    | x => x
  match l1.reverse with
  | '-' :: t => t.reverse
  | _ => l1

/-- `VaultExporter.sanitizeFileName`: lowercase, collapse characters
outside `[a-z0-9\-_]` to hyphens, collapse hyphen runs, trim edge
hyphens. -/
def sanitizeFileName (name : String) : String :=
  let mapped := (jsToLower name).data.map (fun c =>
    if ('a' ≤ c ∧ c ≤ 'z') ∨ ('0' ≤ c ∧ c ≤ '9') ∨ c = '-' ∨ c = '_' then c else '-')
  ⟨trimDashes (collapseDashGo false mapped)⟩

/-- `VaultExporter.sanitizeSectionId` (same algorithm as
`sanitizeFileName`, duplicated in the source). -/
def sanitizeSectionId (sec : String) : String :=
  let mapped := (jsToLower sec).data.map (fun c =>
    if ('a' ≤ c ∧ c ≤ 'z') ∨ ('0' ≤ c ∧ c ≤ '9') ∨ c = '-' ∨ c = '_' then c else '-')
  ⟨trimDashes (collapseDashGo false mapped)⟩

/-- Scanner of `VaultExporter.convertObsidianWikilinks`
(`/\[\[([^\]|]+)(\|([^\]]+))?\]\]/g`); `target.split('#')` destructures to
the text before the first `#` and the text between the first and second
`#`. -/
def wikiGo : Nat → List Char → List Char
  | 0, cs => cs
  | _ + 1, [] => []
  | fuel + 1, c :: t =>
    match (if c = '[' then
             (match t with
              | '[' :: r0 => wikiInner r0
              | _ => none)
           else none) with
    | some (tgt, ali, r2) =>
      let target : String := ⟨tgt⟩
      let linkText : String := match ali with
        | some a => ⟨a⟩
        | none => target
      let repl :=
        if containsSub target "#" then
          let noteName : String := ⟨tgt.takeWhile (fun x => !(x == '#'))⟩
          let sectPart := (tgt.dropWhile (fun x => !(x == '#'))).drop 1
          let sect : String := ⟨sectPart.takeWhile (fun x => !(x == '#'))⟩
          "xref:" ++ sanitizeFileName noteName ++ ".adoc" ++ "#" ++
            sanitizeSectionId sect ++ "[" ++ linkText ++ "]"
        else
          "xref:" ++ sanitizeFileName target ++ ".adoc" ++ "[" ++ linkText ++ "]"
      repl.data ++ wikiGo fuel r2
    | none => c :: wikiGo fuel t

/-- `VaultExporter.convertObsidianWikilinks`. -/
def convertObsidianWikilinks (content : String) : String :=
  ⟨wikiGo (content.data.length + 1) content.data⟩

/-! ## Block references (`convertObsidianBlockReferences`) -/

/-- The character class `[a-zA-Z0-9\-_]`. -/
def isIdChar (c : Char) : Bool :=
  ('a' ≤ c && c ≤ 'z') || ('A' ≤ c && c ≤ 'Z') || ('0' ≤ c && c ≤ '9') ||
  c = '-' || c = '_'

/-- Scanner of `content.replace(/\s+\^([a-zA-Z0-9\-_]+)$/gm, ' [[block-$1]]')`:
a whitespace run followed by `^id` at a line end. -/
def blockAnchorGo : Nat → List Char → List Char
  | 0, cs => cs
  | _ + 1, [] => []
  | fuel + 1, c :: t =>
    match (if jsWS c then
             (let w := t.takeWhile jsWS
              match t.drop w.length with
              | '^' :: r1 =>
                let idr := r1.takeWhile isIdChar
                match idr, r1.drop idr.length with
                | _ :: _, [] => some (idr, ([] : List Char))
                | _ :: _, '\n' :: rr => some (idr, '\n' :: rr)
                | _, _ => none
              | _ => none)
           else none) with
    | some (idr, rest) =>
      " [[block-".data ++ idr ++ "]]".data ++ blockAnchorGo fuel rest
    | none => c :: blockAnchorGo fuel t

/-- For `/\[\[([^\]|]+)#\^([a-zA-Z0-9\-_]+)...`: split the bracket body
into the note name and the block id (the id is the maximal trailing
id-character run preceded by `#^`). -/
def blockRefSplit (u : List Char) : Option (List Char × List Char) :=
  let rev := u.reverse
  let idrev := rev.takeWhile isIdChar
  match idrev, rev.drop idrev.length with
  | _ :: _, '^' :: '#' :: noteRev =>
    match noteRev with
    | [] => none
    | _ :: _ => some (noteRev.reverse, idrev.reverse)
  | _, _ => none

/-- Scanner of
`/\[\[([^\]|]+)#\^([a-zA-Z0-9\-_]+)(\|([^\]]+))?\]\]/g → xref`. -/
def blockRefLinkGo : Nat → List Char → List Char
  | 0, cs => cs
  | _ + 1, [] => []
  | fuel + 1, c :: t =>
    match (if c = '[' then
             (match t with
              | '[' :: r0 =>
                let u := r0.takeWhile notBracketPipe
                match blockRefSplit u with
                | some (note, idr) =>
                  match r0.drop u.length with
                  | '|' :: r1 =>
                    let ali := r1.takeWhile notBracket
                    match ali, r1.drop ali.length with
                    | _ :: _, ']' :: ']' :: r2 => some (note, idr, some ali, r2)
                    | _, _ => none
                  | ']' :: ']' :: r2 => some (note, idr, (none : Option (List Char)), r2)
                  | _ => none
                | none => none
              | _ => none)
           else none) with
    | some (note, idr, ali, r2) =>
      let noteName : String := ⟨note⟩
      let linkText : String := match ali with
        | some a => ⟨a⟩
        | none => noteName ++ " (Block)"
      ("xref:" ++ sanitizeFileName noteName ++ ".adoc" ++ "#block-" ++
        (⟨idr⟩ : String) ++ "[" ++ linkText ++ "]").data ++ blockRefLinkGo fuel r2
    | none => c :: blockRefLinkGo fuel t

/-- `VaultExporter.convertObsidianBlockReferences` (both replacements, in
source order). -/
def convertObsidianBlockReferences (content : String) : String :=
  let s₁ := blockAnchorGo (content.data.length + 1) content.data
  ⟨blockRefLinkGo (s₁.length + 1) s₁⟩

/-! ## Math (`convertObsidianMath`) -/

/-- Earliest `$$` in the input (`[\s\S]*?` is lazy): `some (before,
after)`. -/
def findDollar2 : Nat → List Char → Option (List Char × List Char)
  | 0, _ => none
  | _ + 1, [] => none
  | fuel + 1, c :: t =>
    match t with
    | c₂ :: t₂ =>
      if c = '$' ∧ c₂ = '$' then some ([], t₂)
      else match findDollar2 fuel t with
        | some (pre, post) => some (c :: pre, post)
        | none => none
    | [] => none

/-- Scanner of `/\$\$([\s\S]*?)\$\$/g → [stem] block`. -/
def mathBlockGo : Nat → List Char → List Char
  | 0, cs => cs
  | _ + 1, [] => []
  | fuel + 1, c :: t =>
    match (if c = '$' then
             (match t with
              | '$' :: r0 => findDollar2 (r0.length + 1) r0
              | _ => none)
           else none) with
    | some (body, rest) =>
      "[stem]\n++++\n".data ++ jsTrimL body ++ "\n++++".data ++ mathBlockGo fuel rest
    | none => c :: mathBlockGo fuel t

/-- Scanner of `/\$([^$]+)\$/g → latexmath:[$1]`. -/
def mathInlineGo : Nat → List Char → List Char
  | 0, cs => cs
  | _ + 1, [] => []
  | fuel + 1, c :: t =>
    match (if c = '$' then
             (let b := t.takeWhile (fun x => !(x == '$'))
              match b, t.drop b.length with
              | _ :: _, '$' :: r2 => some (b, r2)
              | _, _ => none)
           else none) with
    | some (b, r2) => "latexmath:[".data ++ b ++ ']' :: mathInlineGo fuel r2
    | none => c :: mathInlineGo fuel t

/-- `VaultExporter.convertObsidianMath`: block math first, then inline. -/
def convertObsidianMath (content : String) : String :=
  let s₁ := mathBlockGo (content.data.length + 1) content.data
  ⟨mathInlineGo (s₁.length + 1) s₁⟩

/-! ## Headers (`convertHeaders`)

`/^(#{1,6})\s+(.+)$/gm`: one to six hashes, mandatory whitespace, a
non-empty title to the line end.  As in the blockquote rule, a greedy
`\s+` may swallow newlines; the match keeps the longest whitespace prefix
that leaves a non-newline character for `(.+)`. -/

/-- The shared `\s+(.+)$` tail: given the text after the fixed prefix,
return the capture and the remainder, or `none`. -/
def wsPlusRestMatch (t₁ : List Char) : Option (List Char × List Char) :=
  let w := t₁.takeWhile jsWS
  let k? : Option Nat :=
    if w.length < t₁.length then
      (if w.length = 0 then none else some w.length)
    else match lastNonNl w with
      | some i => if i = 0 then none else some i
      | none => none
  match k? with
  | none => none
  | some k =>
    let afterK := t₁.drop k
    let title := afterK.takeWhile notNl
    match title with
    | [] => none
    | _ :: _ => some (title, afterK.drop title.length)

/-- Match attempt of the header regex at a line start. -/
def headerMatch (t : List Char) : Option (Nat × List Char × List Char) :=
  let hashes := t.takeWhile (fun x => x == '#')
  if hashes.length = 0 ∨ 7 ≤ hashes.length then none
  else
    match wsPlusRestMatch (t.drop hashes.length) with
    | some (title, rest) => some (hashes.length, title, rest)
    | none => none

/-- Line loop of `convertHeaders`. -/
def headersGo : Nat → List Char → List Char
  | 0, cs => cs
  | _ + 1, [] => []
  | fuel + 1, c :: t =>
    match headerMatch (c :: t) with
    | some (level, title, rest) =>
      List.replicate level '=' ++ ' ' :: title ++
        (match rest with
         | [] => []
         | r :: rs => r :: headersGo fuel rs)
    | none =>
      let line := (c :: t).takeWhile notNl
      match (c :: t).dropWhile notNl with
      | [] => c :: t
      | r :: rs => line ++ r :: headersGo fuel rs

/-- `VaultExporter.convertHeaders`. -/
def convertHeaders (content : String) : String :=
  ⟨headersGo (content.data.length + 1) content.data⟩

/-! ## Export settings and code fences (`convertCodeBlocks`) -/

/-- `ExportSettings` (src/types.ts); `format` is fixed to `"asciidoc"`. -/
structure ExportSettings where
  exportPath : String
  includeAttachments : Bool
  renderDiagrams : Bool
  format : String
deriving DecidableEq

/-- The character class `\w` = `[A-Za-z0-9_]`. -/
def isWordChar (c : Char) : Bool :=
  ('a' ≤ c && c ≤ 'z') || ('A' ≤ c && c ≤ 'Z') || ('0' ≤ c && c ≤ '9') || c = '_'

def ticks3 : List Char := "```".data

/-- Earliest occurrence of three backticks (`[\s\S]*?` is lazy):
`some (before, after)`. -/
def findTicks3 : Nat → List Char → Option (List Char × List Char)
  | 0, _ => none
  | _ + 1, [] => none
  | fuel + 1, c :: t =>
    if ticks3.isPrefixOf (c :: t) then some ([], (c :: t).drop 3)
    else match findTicks3 fuel t with
      | some (pre, post) => some (c :: pre, post)
      | none => none

/-- Scanner of `/```(\w+)?\n?([\s\S]*?)```/g` with the source's
three-branch replacement (all branches emit a literal source block; the
first applies when `renderDiagrams` is off, the second when the registry
`canRender` accepts the lower-cased tag, the third otherwise). -/
def codeBlocksGo (renderDiagrams : Bool) (canRender : String → Bool) :
    Nat → List Char → List Char
  | 0, cs => cs
  | _ + 1, [] => []
  | fuel + 1, c :: t =>
    match (if ticks3.isPrefixOf (c :: t) then
             (let r0 := (c :: t).drop 3
              let lang := r0.takeWhile isWordChar
              let r1 := r0.drop lang.length
              let r2 := match r1 with
                | '\n' :: rr => rr
                | _ => r1
              match findTicks3 (r2.length + 1) r2 with
              | some (body, rest) => some (lang, body, rest)
              | none => none)
           else none) with
    | some (lang, body, rest) =>
      let language : Option String := match lang with
        | [] => none
        | _ :: _ => some ⟨lang⟩
      let langOr : String := match language with
        | some l => l
        | none => "text"
      let repl :=
        if !renderDiagrams then
          "[source," ++ langOr ++ "]\n----\n" ++ jsTrim ⟨body⟩ ++ "\n----"
        else if (match language with
                 | some l => canRender (jsToLower l)
                 | none => false) then
          "[source," ++ (match language with | some l => l | none => "") ++
            "]\n----\n" ++ jsTrim ⟨body⟩ ++ "\n----"
        else
          "[source," ++ langOr ++ "]\n----\n" ++ jsTrim ⟨body⟩ ++ "\n----"
      repl.data ++ codeBlocksGo renderDiagrams canRender fuel rest
    | none => c :: codeBlocksGo renderDiagrams canRender fuel t

/-- `VaultExporter.convertCodeBlocks`; the renderer registry is the
`canRender` oracle. -/
def convertCodeBlocks (settings : ExportSettings) (canRender : String → Bool)
    (content : String) : String :=
  ⟨codeBlocksGo settings.renderDiagrams canRender (content.data.length + 1) content.data⟩

/-! ## Lists (`convertLists`) -/

def isDigitChar (c : Char) : Bool := '0' ≤ c && c ≤ '9'

/-- Match attempt of `/^(\s*)[-*+]\s+(.+)$/gm` at a line start: returns
`(indent length, item, rest)`.  `(\s*)` is necessarily the full leading
whitespace run (no whitespace character is a list marker). -/
def ulMatch (t : List Char) : Option (Nat × List Char × List Char) :=
  let w := t.takeWhile jsWS
  match t.drop w.length with
  | m :: r1 =>
    if m = '-' ∨ m = '*' ∨ m = '+' then
      match wsPlusRestMatch r1 with
      | some (item, rest) => some (w.length, item, rest)
      | none => none
    else none
  | [] => none

/-- Match attempt of `/^(\s*)\d+\.\s+(.+)$/gm` at a line start. -/
def olMatch (t : List Char) : Option (Nat × List Char × List Char) :=
  let w := t.takeWhile jsWS
  let r0 := t.drop w.length
  let ds := r0.takeWhile isDigitChar
  match ds, r0.drop ds.length with
  | _ :: _, '.' :: r1 =>
    match wsPlusRestMatch r1 with
    | some (item, rest) => some (w.length, item, rest)
    | none => none
  | _, _ => none

/-- Line loop of the unordered-list pass (`'*'.repeat(level)` with
`level = Math.floor(indent.length / 2) + 1`). -/
def listULGo : Nat → List Char → List Char
  | 0, cs => cs
  | _ + 1, [] => []
  | fuel + 1, c :: t =>
    match ulMatch (c :: t) with
    | some (ind, item, rest) =>
      List.replicate (ind / 2 + 1) '*' ++ ' ' :: item ++
        (match rest with
         | [] => []
         | r :: rs => r :: listULGo fuel rs)
    | none =>
      let line := (c :: t).takeWhile notNl
      match (c :: t).dropWhile notNl with
      | [] => c :: t
      | r :: rs => line ++ r :: listULGo fuel rs

/-- Line loop of the ordered-list pass (`'.'.repeat(level)`). -/
def listOLGo : Nat → List Char → List Char
  | 0, cs => cs
  | _ + 1, [] => []
  | fuel + 1, c :: t =>
    match olMatch (c :: t) with
    | some (ind, item, rest) =>
      List.replicate (ind / 2 + 1) '.' ++ ' ' :: item ++
        (match rest with
         | [] => []
         | r :: rs => r :: listOLGo fuel rs)
    | none =>
      let line := (c :: t).takeWhile notNl
      match (c :: t).dropWhile notNl with
      | [] => c :: t
      | r :: rs => line ++ r :: listOLGo fuel rs

/-- `VaultExporter.convertLists`: unordered pass, then ordered pass. -/
def convertLists (content : String) : String :=
  let s₁ := listULGo (content.data.length + 1) content.data
  ⟨listOLGo (s₁.length + 1) s₁⟩

/-! ## Links and images (`convertLinks`, `convertImages`) -/

/-- Scanner of `/\[([^\]]+)\]\(([^)]+)\)/g`. -/
def linksGo : Nat → List Char → List Char
  | 0, cs => cs
  | _ + 1, [] => []
  | fuel + 1, c :: t =>
    match (if c = '[' then
             (let txt := t.takeWhile notBracket
              match txt, t.drop txt.length with
              | _ :: _, ']' :: '(' :: r1 =>
                let url := r1.takeWhile (fun x => !(x == ')'))
                match url, r1.drop url.length with
                | _ :: _, ')' :: r2 => some (txt, url, r2)
                | _, _ => none
              | _, _ => none)
           else none) with
    | some (txt, url, r2) =>
      let u : String := ⟨url⟩
      let x : String := ⟨txt⟩
      let repl :=
        if strStartsWith u "http://" || strStartsWith u "https://" then
          u ++ "[" ++ x ++ "]"
        else "link:" ++ u ++ "[" ++ x ++ "]"
      repl.data ++ linksGo fuel r2
    | none => c :: linksGo fuel t

/-- `VaultExporter.convertLinks`. -/
def convertLinks (content : String) : String :=
  ⟨linksGo (content.data.length + 1) content.data⟩

/-- `VaultExporter.basename`: last slash-separated segment. -/
def basename (filePath : String) : String :=
  match (splitChar '/' filePath).getLast? with
  | some b => b
  | none => filePath

/-- First image pass: `/!\[\[([^\]|]+)(\|([^\]]+))?\]\]/g` (the Obsidian
image form, normally already consumed by the embeds stage). -/
def imagesObsGo : Nat → List Char → List Char
  | 0, cs => cs
  | _ + 1, [] => []
  | fuel + 1, c :: t =>
    match (if c = '!' then
             (match t with
              | '[' :: '[' :: r0 => wikiInner r0
              | _ => none)
           else none) with
    | some (tgt, ali, r2) =>
      let imagePath : String := ⟨tgt⟩
      let altText : String := match ali with
        | some a => ⟨a⟩
        | none => stripLastExt (basename imagePath)
      ("image::" ++ imagePath ++ "[" ++ altText ++ "]").data ++ imagesObsGo fuel r2
    | none => c :: imagesObsGo fuel t

/-- Second image pass: `/!\[([^\]]*)\]\(([^)]+)\)/g` (the alt text may be
empty). -/
def imagesMdGo : Nat → List Char → List Char
  | 0, cs => cs
  | _ + 1, [] => []
  | fuel + 1, c :: t =>
    match (if c = '!' then
             (match t with
              | '[' :: r0 =>
                let alt := r0.takeWhile notBracket
                match r0.drop alt.length with
                | ']' :: '(' :: r1 =>
                  let p := r1.takeWhile (fun x => !(x == ')'))
                  match p, r1.drop p.length with
                  | _ :: _, ')' :: r2 => some (alt, p, r2)
                  | _, _ => none
                | _ => none
              | _ => none)
           else none) with
    | some (alt, p, r2) =>
      let imagePath : String := ⟨p⟩
      let altText : String :=
        if alt.isEmpty then stripLastExt (basename imagePath) else ⟨alt⟩
      ("image::" ++ imagePath ++ "[" ++ altText ++ "]").data ++ imagesMdGo fuel r2
    | none => c :: imagesMdGo fuel t

/-- `VaultExporter.convertImages`: the Obsidian form first, then the
standard markdown form. -/
def convertImages (content : String) : String :=
  let s₁ := imagesObsGo (content.data.length + 1) content.data
  ⟨imagesMdGo (s₁.length + 1) s₁⟩

/-! ## Frontmatter (`extractFrontmatter`) and header injection
(`addDocumentHeader`) -/

/-- Index of the last newline, if any. -/
def lastNl : List Char → Option Nat
  | [] => none
  | c :: t =>
    match lastNl t with
    | some i => some (i + 1)
    | none => if c = '\n' then some 0 else none

/-- Greedy `\s*` followed by a literal `\n`: consumes through the last
newline of the whitespace run; `none` when the run contains no newline. -/
def wsThruLastNl (t : List Char) : Option (List Char) :=
  let w := t.takeWhile jsWS
  match lastNl w with
  | some i => some (t.drop (i + 1))
  | none => none

/-- Search for the frontmatter closing delimiter (the lazy body makes the
earliest `\n---\s*\n` win): `some (body, rest)`. -/
def fmClose : Nat → List Char → Option (List Char × List Char)
  | 0, _ => none
  | _ + 1, [] => none
  | fuel + 1, c :: t =>
    match (if c = '\n' then
             (match t with
              | '-' :: '-' :: '-' :: r0 => wsThruLastNl r0
              | _ => none)
           else none) with
    | some rest => some ([], rest)
    | none =>
      match fmClose fuel t with
      | some (body, rest) => some (c :: body, rest)
      | none => none

/-- A frontmatter value as the simple YAML parser produces it. -/
inductive YamlVal where
  | str : String → YamlVal
  | arr : List String → YamlVal
deriving DecidableEq

/-- `replace(/['"]/g, '')`: remove every quote. -/
def stripAllQuotes (s : String) : String :=
  ⟨s.data.filter (fun c => !(c == squote) && !(c == '"'))⟩

/-- `replace(/^['"]|['"]$/g, '')`: one leading and one trailing quote. -/
def stripEdgeQuotes (s : String) : String :=
  let isQ : Char → Bool := fun c => c == squote || c == '"'
  let l1 := match s.data with
    | c :: t => if isQ c then t else c :: t
    | [] => []
  let l2 := match l1.reverse with
    | c :: t => if isQ c then t.reverse else l1
    | [] => l1
  ⟨l2⟩

/-- `trimmed.indexOf(':')`. -/
def idxOfColon : List Char → Option Nat
  | [] => none
  | c :: t => if c = ':' then some 0 else (idxOfColon t).map (· + 1)

/-- `lines.indexOf(line)` (first occurrence). -/
def idxOfStr (x : String) : List String → Option Nat
  | [] => none
  | s :: t => if s = x then some 0 else (idxOfStr x t).map (· + 1)

/-- One iteration of the frontmatter parsing loop: empty and `#` lines and
lines without a colon are skipped; `[a, b]` values split on commas with all
quotes removed; a value starting with `-` collects the following `-` lines
(located via the first occurrence of the current line); other values lose
one leading and one trailing quote. -/
def parseFmLine (lines : List String) (line : String) : Option (String × YamlVal) :=
  let trimmed := jsTrim line
  if trimmed = "" then none
  else if strStartsWith trimmed "#" then none
  else match idxOfColon trimmed.data with
    | none => none
    | some ci =>
      let key := jsTrim ⟨trimmed.data.take ci⟩
      let v := jsTrim ⟨trimmed.data.drop (ci + 1)⟩
      if strStartsWith v "[" && strEndsWith v "]" then
        some (key, YamlVal.arr ((splitChar ',' ⟨(v.data.drop 1).dropLast⟩).map
          (fun x => stripAllQuotes (jsTrim x))))
      else if strStartsWith v "-" then
        let j0 := match idxOfStr line lines with
          | some j => j + 1
          | none => lines.length
        let items := (lines.drop j0).takeWhile (fun l => strStartsWith (jsTrim l) "-")
        some (key, YamlVal.arr (jsTrim ⟨v.data.drop 1⟩ ::
          items.map (fun l => jsTrim ⟨(jsTrim l).data.drop 1⟩)))
      else some (key, YamlVal.str (stripEdgeQuotes v))

/-- The frontmatter object built by the parsing loop (later keys
overwrite: lookups take the last binding). -/
def extractFrontmatterParse (yaml : String) : List (String × YamlVal) :=
  (splitChar '\n' yaml).filterMap (parseFmLine (splitChar '\n' yaml))

/-- Last binding for a key (JavaScript object assignment overwrites). -/
def fmGet (fm : List (String × YamlVal)) (key : String) : Option YamlVal :=
  ((fm.filter (fun kv => kv.1 == key)).getLast?).map (fun kv => kv.2)

/-- `VaultExporter.extractFrontmatter`: the leading
`/^---\s*\n([\s\S]*?)\n---\s*\n/` block is stripped and parsed (`none`
when the regex does not match). -/
def extractFrontmatter (content : String) :
    String × Option (List (String × YamlVal)) :=
  match content.data with
  | '-' :: '-' :: '-' :: r0 =>
    (match wsThruLastNl r0 with
     | none => (content, none)
     | some afterOpen =>
       match fmClose (afterOpen.length + 1) afterOpen with
       | none => (content, none)
       | some (body, rest) => (⟨rest⟩, some (extractFrontmatterParse ⟨body⟩)))
  | _ => (content, none)

/-- JavaScript truthiness of a frontmatter field (`""` is falsy, arrays
are truthy). -/
def jsTruthyVal : Option YamlVal → Bool
  | none => false
  | some (.str s) => !(s == "")
  | some (.arr _) => true

/-- Template-literal stringification (`${value}`): arrays join with a bare
comma. -/
def jsValToString : YamlVal → String
  | .str s => s
  | .arr l => joinWith "," l

/-- `Array.isArray(v) ? v.join(', ') : v`. -/
def joinIfArray : YamlVal → String
  | .arr l => joinWith ", " l
  | .str s => s

/-- One conditional attribute line of `addDocumentHeader`. -/
def fmAttr (f : List (String × YamlVal)) (key : String)
    (render : YamlVal → String) : String :=
  match fmGet f key with
  | some v => if jsTruthyVal (some v) then render v else ""
  | none => ""

/-- The fixed attribute block appended by `addDocumentHeader`. -/
def fixedAttrBlock : String :=
  ":doctype: article\n:toc: left\n:toclevels: 3\n:sectlinks:\n:sectanchors:\n:source-highlighter: highlight.js\n:stem: latexmath\n\n"

/-- `VaultExporter.addDocumentHeader`. -/
def addDocumentHeader (content fileName : String)
    (fm : Option (List (String × YamlVal))) : String :=
  let title := jsReplaceFirst fileName ".md" ""
  let fmPart :=
    match fm with
    | none => ""
    | some f =>
      fmAttr f "author" (fun v => ":author: " ++ jsValToString v ++ "\n") ++
      fmAttr f "email" (fun v => ":email: " ++ jsValToString v ++ "\n") ++
      fmAttr f "created" (fun v => ":revdate: " ++ jsValToString v ++ "\n") ++
      fmAttr f "modified" (fun v => ":revdate: " ++ jsValToString v ++ "\n") ++
      fmAttr f "description" (fun v => ":description: " ++ jsValToString v ++ "\n") ++
      fmAttr f "keywords" (fun v => ":keywords: " ++ joinIfArray v ++ "\n") ++
      fmAttr f "tags" (fun v => ":keywords: " ++ joinIfArray v ++ "\n") ++
      fmAttr f "aliases" (fun v => ":aliases: " ++ joinIfArray v ++ "\n") ++
      fmAttr f "cssclass" (fun v => ":stylesheet: " ++ jsValToString v ++ ".css\n")
  "= " ++ title ++ "\n" ++ fmPart ++ fixedAttrBlock ++ content

/-- `VaultExporter.convertMarkdownToAsciiDoc`: the pipeline stages in
source order. -/
def convertMarkdownToAsciiDoc (settings : ExportSettings)
    (canRender : String → Bool) (content : String) (fileName : String) : String :=
  let fmRes := extractFrontmatter content
  let s := fmRes.1
  let s := convertObsidianTags s
  let s := convertObsidianCallouts s
  let s := convertObsidianEmbeds s
  let s := convertObsidianWikilinks s
  let s := convertObsidianBlockReferences s
  let s := convertObsidianMath s
  let s := convertHeaders s
  let s := convertEmphasis s
  let s := convertCodeBlocks settings canRender s
  let s := convertInlineCode s
  let s := convertLists s
  let s := convertLinks s
  let s := convertImages s
  let s := convertTables s
  let s := convertBlockquotes s
  let s := convertHorizontalRules s
  addDocumentHeader s fileName fmRes.2

/-! ## Export path resolution (`resolveExportPath`, `isAbsolutePath`) -/

def isAsciiLetter (c : Char) : Bool :=
  ('A' ≤ c && c ≤ 'Z') || ('a' ≤ c && c ≤ 'z')

/-- The test `/^[A-Za-z]:[\\\/]/.test(filePath)`. -/
def driveLetterTest : List Char → Bool
  | c :: d :: e :: _ => isAsciiLetter c && d = ':' && (e = '\\' || e = '/')
  | _ => false

/-- `VaultExporter.isAbsolutePath`: Unix root, drive-letter form, or UNC
double-backslash prefix. -/
def isAbsolutePath (filePath : String) : Bool :=
  strStartsWith filePath "/" || driveLetterTest filePath.data ||
  strStartsWith filePath "\\\\"

/-- `VaultExporter.resolveExportPath`. -/
def resolveExportPath (exportPath : String) : String :=
  if isAbsolutePath exportPath then exportPath else "../" ++ exportPath

/-- The specification's description of a recognized absolute target (a
second definition written from the spec's words, to be compared with
`isAbsolutePath`): a Unix leading slash, a drive-letter-plus-separator
prefix, or a UNC double-backslash prefix. -/
def specRecognizedAbsolute (p : String) : Bool :=
  match p.data with
  | [] => false
  | [a] => a = '/'
  | [a, b] => a = '/' || (a = '\\' && b = '\\')
  | a :: b :: c :: _ =>
    a = '/' || (a = '\\' && b = '\\') ||
    ((('A' ≤ a && a ≤ 'Z') || ('a' ≤ a && a ≤ 'z')) && b = ':' &&
      (c = '\\' || c = '/'))

/-! ## The in-memory export orchestrator (`VaultExporter`, memory mode)

The host storage capability is passed as oracles: `readNote` models
`app.vault.read` on markdown files, `readAsset` the text read of an asset,
`readAssetB64` the composition `Buffer.from(await readBinary(f)).toString('base64')`. -/

/-- A file of the host vault listing (`app.vault.getFiles()` element). -/
structure TF where
  path : String
  name : String
  extension : String
  mtime : Nat
deriving DecidableEq

/-- `VaultFile` (src/types.ts); `content` is present only for markdown
files. -/
structure VaultFile where
  path : String
  name : String
  extension : String
  isMarkdown : Bool
  content : Option String
  lastModified : Nat
deriving DecidableEq

/-- The `'asciidoc' | 'asset'` union of `ExportedFile.type`. -/
inductive FileType where
  | asciidoc : FileType
  | asset : FileType
deriving DecidableEq

/-- `ExportedFile` (src/types.ts). -/
structure ExportedFile where
  path : String
  content : String
  type : FileType
deriving DecidableEq

/-- `VaultExporter.getVaultStructure`: one snapshot; content is read for
markdown files only. -/
def getVaultStructure (vault : List TF) (readNote : String → String) : List VaultFile :=
  vault.map (fun f =>
    { path := f.path, name := f.name, extension := f.extension,
      isMarkdown := f.extension == "md",
      content := if f.extension == "md" then some (readNote f.path) else none,
      lastModified := f.mtime })

/-- JavaScript truthiness of `file.content` (absent and `""` are falsy). -/
def contentTruthy : Option String → Bool
  | none => false
  | some s => !(s == "")

/-- `file.path.replace(/\.md$/, '.adoc')`. -/
def adocPath (p : String) : String :=
  if strEndsWith p ".md" then ⟨p.data.take (p.data.length - 3) ++ ".adoc".data⟩
  else p

/-- `VaultExporter.exportMarkdownFileAsAsciiDocToMemory`: the pushed entry,
or `none` when the file is skipped (`if (!file.content) return`). -/
def exportMarkdownFileAsAsciiDocToMemory (settings : ExportSettings)
    (canRender : String → Bool) (file : VaultFile) : Option ExportedFile :=
  if contentTruthy file.content then
    some { path := adocPath file.path,
           content := convertMarkdownToAsciiDoc settings canRender
             (file.content.getD "") file.name,
           type := FileType.asciidoc }
  else none

/-- `VaultExporter.exportMarkdownFilesAsAsciiDocToMemory`. -/
def exportMarkdownFilesAsAsciiDocToMemory (settings : ExportSettings)
    (canRender : String → Bool) (files : List VaultFile) : List ExportedFile :=
  (files.filter (fun f => f.isMarkdown)).filterMap
    (exportMarkdownFileAsAsciiDocToMemory settings canRender)

/-- `VaultExporter.isBinaryFile`. -/
def binaryExtensions : List String :=
  [".png", ".jpg", ".jpeg", ".gif", ".svg", ".pdf", ".mp4", ".mp3", ".webp",
   ".bmp", ".tiff", ".zip", ".rar", ".7z", ".exe", ".dmg"]

def isBinaryFile (filePath : String) : Bool :=
  binaryExtensions.any (fun ext => strEndsWith (jsToLower filePath) ext)

/-- `VaultExporter.copyAllAttachmentsToMemory`: every vault file whose path
does not end in `.md` is pushed as an asset; binary assets are transported
base64-encoded. -/
def copyAllAttachmentsToMemory (vault : List TF)
    (readAsset readAssetB64 : String → String) : List ExportedFile :=
  (vault.filter (fun f => !(strEndsWith f.path ".md"))).map (fun f =>
    { path := f.path,
      content := if isBinaryFile f.path then readAssetB64 f.path else readAsset f.path,
      type := FileType.asset })

/-- `VaultExporter.generateAsciiDocFileList`: one `xref` bullet per
markdown file of the snapshot. -/
def generateAsciiDocFileList (files : List VaultFile) : String :=
  joinWith "\n" ((files.filter (fun f => f.isMarkdown)).map (fun file =>
    "* xref:" ++ adocPath file.path ++ "[" ++ jsReplaceFirst file.name ".md" "" ++ "]"))

/-- The generated index content (`generateIndexAsciiDocToMemory`); the
locale-formatted date is the `clockDE` parameter. -/
def indexContent (files : List VaultFile) (clockDE : String) : String :=
  "= Vault Export\n:doctype: article\n:toc: left\n:toclevels: 3\n:sectlinks:\n:sectanchors:\n\nExported on " ++
  clockDE ++ "\n\n== Files\n\n" ++ generateAsciiDocFileList files ++
  "\n\n---\n\n_This export was generated by the Obsidian Vault Exporter plugin._\n"

/-- `VaultExporter.generateIndexAsciiDocToMemory` (the pushed entry). -/
def generateIndexAsciiDocToMemory (files : List VaultFile) (clockDE : String) :
    ExportedFile :=
  { path := "index.adoc", content := indexContent files clockDE,
    type := FileType.asciidoc }

/-- `VaultExporter.exportAsAsciiDocToMemory`: documents, then (when asset
inclusion is on) assets, then the generated index entry, in this order. -/
def exportAsAsciiDocToMemory (settings : ExportSettings) (canRender : String → Bool)
    (vault : List TF) (readAsset readAssetB64 : String → String) (clockDE : String)
    (files : List VaultFile) : List ExportedFile :=
  exportMarkdownFilesAsAsciiDocToMemory settings canRender files ++
  (if settings.includeAttachments then
     copyAllAttachmentsToMemory vault readAsset readAssetB64
   else []) ++
  [generateIndexAsciiDocToMemory files clockDE]

/-- `ExportFileData` (src/types.ts). -/
structure ExportFileData where
  path : String
  content : String
  type : FileType
  size : Nat
deriving DecidableEq

structure ExportMetadata where
  exportedAt : String
  totalFiles : Nat
  settings : ExportSettings
deriving DecidableEq

/-- `ExportData` (src/types.ts). -/
structure ExportData where
  files : List ExportFileData
  metadata : ExportMetadata
deriving DecidableEq

/-- `VaultExporter.exportVaultToMemory`; `clockISO` models
`new Date().toISOString()` and `clockDE` the `de-DE` locale date. -/
def exportVaultToMemory (settings : ExportSettings) (vault : List TF)
    (readNote readAsset readAssetB64 : String → String)
    (canRender : String → Bool) (clockISO clockDE : String) : ExportData :=
  let vs := getVaultStructure vault readNote
  let exported := exportAsAsciiDocToMemory settings canRender vault readAsset
    readAssetB64 clockDE vs
  { files := exported.map (fun f =>
      { path := f.path, content := f.content, type := f.type,
        size := f.content.utf8ByteSize }),
    metadata := { exportedAt := clockISO, totalFiles := exported.length,
                  settings := settings } }

/-- The target-path multiset a memory export produces (converted
documents, optional assets, the index), used to state when bundle paths
are unique. -/
def derivedPaths (settings : ExportSettings) (vault : List TF)
    (readNote : String → String) : List String :=
  ((getVaultStructure vault readNote).filter (fun f => f.isMarkdown)).filterMap
      (fun f => if contentTruthy f.content then some (adocPath f.path) else none) ++
  (if settings.includeAttachments then
     (vault.filter (fun f => !(strEndsWith f.path ".md"))).map TF.path
   else []) ++
  ["index.adoc"]

/-! ## The filesystem-mode export orchestrator (`VaultExporter`,
filesystem mode)

Directory creation and file writes are I/O side effects on the host
storage port; what the model captures is the sequence of entries pushed to
`exportedFiles`, which both modes build the same way (documents, optional
assets, index). -/

/-- Collapse runs of `sep` into a single `sep` (the
`replace` of a separator run in `joinPath`). -/
def collapseSepGo (sep : Char) : Bool → List Char → List Char
  | _, [] => []
  | prev, c :: t =>
    if c = sep then
      if prev then collapseSepGo sep true t else c :: collapseSepGo sep true t
    else c :: collapseSepGo sep false t

/-- `VaultExporter.joinPath` for two segments: when the first segment is
absolute and contains a backslash, join with a backslash and collapse
backslash runs; otherwise join with a slash and collapse slash runs. -/
def joinPath (a b : String) : String :=
  if isAbsolutePath a && containsSub a "\\" then
    ⟨collapseSepGo '\\' false (a ++ "\\" ++ b).data⟩
  else
    ⟨collapseSepGo '/' false (a ++ "/" ++ b).data⟩

/-- `VaultExporter.exportMarkdownFileAsAsciiDoc` (filesystem mode): the
entry pushed after the write at `joinPath(basePath, path with .md →
.adoc)`, or `none` when the file is skipped (`if (!file.content)
return`). -/
def exportMarkdownFileAsAsciiDoc (settings : ExportSettings)
    (canRender : String → Bool) (basePath : String) (file : VaultFile) :
    Option ExportedFile :=
  if contentTruthy file.content then
    some { path := joinPath basePath (adocPath file.path),
           content := convertMarkdownToAsciiDoc settings canRender
             (file.content.getD "") file.name,
           type := FileType.asciidoc }
  else none

/-- `VaultExporter.exportMarkdownFilesAsAsciiDoc`. -/
def exportMarkdownFilesAsAsciiDoc (settings : ExportSettings)
    (canRender : String → Bool) (basePath : String) (files : List VaultFile) :
    List ExportedFile :=
  (files.filter (fun f => f.isMarkdown)).filterMap
    (exportMarkdownFileAsAsciiDoc settings canRender basePath)

/-- `VaultExporter.copyAllAttachments` (filesystem mode): every vault file
whose path does not end in `.md` is copied to `joinPath(basePath, path)`
and pushed with empty content and kind asset (a per-file read/write
failure would only drop that item). -/
def copyAllAttachments (vault : List TF) (basePath : String) : List ExportedFile :=
  (vault.filter (fun f => !(strEndsWith f.path ".md"))).map (fun f =>
    { path := joinPath basePath f.path, content := "", type := FileType.asset })

/-- `VaultExporter.generateIndexAsciiDoc` (filesystem mode): the index
entry written at `joinPath(exportPath, 'index.adoc')`, with the same
content template as the memory mode. -/
def generateIndexAsciiDoc (settings : ExportSettings) (files : List VaultFile)
    (clockDE : String) : ExportedFile :=
  { path := joinPath settings.exportPath "index.adoc",
    content := indexContent files clockDE,
    type := FileType.asciidoc }

/-- `VaultExporter.exportAsAsciiDoc` (filesystem mode): the sequence of
entries pushed to `exportedFiles` — converted documents, then (when asset
inclusion is on) assets, then the generated index entry
(`recreateVaultStructure` only creates directories and pushes nothing). -/
def exportAsAsciiDoc (settings : ExportSettings) (canRender : String → Bool)
    (vault : List TF) (clockDE : String) (files : List VaultFile) :
    List ExportedFile :=
  exportMarkdownFilesAsAsciiDoc settings canRender settings.exportPath files ++
  (if settings.includeAttachments then
     copyAllAttachments vault settings.exportPath
   else []) ++
  [generateIndexAsciiDoc settings files clockDE]

/-- `VaultExporter.exportVault` (filesystem mode): the export path is
resolved into the settings first, one snapshot is taken, and the export
runs; the result is the `exportedFiles` sequence. -/
def exportVault (settings : ExportSettings) (canRender : String → Bool)
    (vault : List TF) (readNote : String → String) (clockDE : String) :
    List ExportedFile :=
  let resolved : ExportSettings :=
    { settings with exportPath := resolveExportPath settings.exportPath }
  exportAsAsciiDoc resolved canRender vault clockDE (getVaultStructure vault readNote)

/-! ## HTTP protocol layer (`HttpExportServer`) -/

/-- A JSON value, as far as `parseExportSettings` inspects one. -/
inductive Js where
  | null : Js
  | bool : Bool → Js
  | str : String → Js
  | num : Int → Js
deriving DecidableEq

/-- The fields of a parsed `POST /export` body that
`parseExportSettings` reads (`none` = absent). -/
structure RequestBody where
  exportPath : Option String
  includeAttachments : Option Js
  renderDiagrams : Option Js
deriving DecidableEq

/-- `v || dflt` for the string-typed `exportPath` field (absent and `""`
are falsy). -/
def jsOrDefault (v : Option String) (dflt : String) : String :=
  match v with
  | none => dflt
  | some s => if s = "" then dflt else s

/-- `HttpExportServer.parseExportSettings`. -/
def parseExportSettings (data : RequestBody) : ExportSettings :=
  { exportPath := jsOrDefault data.exportPath "vault-export",
    includeAttachments := !(data.includeAttachments == some (Js.bool false)),
    renderDiagrams := data.renderDiagrams == some (Js.bool true),
    format := "asciidoc" }

/-- Query parameters of `GET /export` (`url.searchParams.get`; `none` =
absent). -/
structure ExportQuery where
  exportPath : Option String
  includeAttachments : Option String
  renderDiagrams : Option String
deriving DecidableEq

/-- The settings value built inline by `HttpExportServer.handleExportGet`. -/
def handleExportGetSettings (q : ExportQuery) : ExportSettings :=
  { exportPath := jsOrDefault q.exportPath "vault-export",
    includeAttachments := q.includeAttachments == some "true",
    renderDiagrams := q.renderDiagrams == some "true",
    format := "asciidoc" }

/-- One named tar entry (`pack.entry({ name }, content)`). -/
structure TarEntry where
  name : String
  content : String
deriving DecidableEq

/-- The observable outcome of an export-route handler. -/
inductive HttpResponse where
  /-- `sendError`: a status code with the JSON payload fields `error` and
  `timestamp`; carries no archive bytes. -/
  | jsonError (status : Nat) (error : String) (timestamp : String) : HttpResponse
  /-- A 200 `application/x-tar` chunked response streaming the given
  entries. -/
  | stream (entries : List TarEntry) : HttpResponse
deriving DecidableEq

/-- `HttpExportServer.performExportAndStream`: the in-memory export
serialized entry by entry; asset entries are base64-decoded back to raw
bytes (`b64decode` oracle) before being written. -/
def performExportAndStream (settings : ExportSettings) (vault : List TF)
    (readNote readAsset readAssetB64 : String → String)
    (canRender : String → Bool) (clockISO clockDE : String)
    (b64decode : String → String) : HttpResponse :=
  let exportData := exportVaultToMemory settings vault readNote readAsset
    readAssetB64 canRender clockISO clockDE
  HttpResponse.stream (exportData.files.map (fun f =>
    if f.type = FileType.asset then
      { name := f.path, content := b64decode f.content }
    else { name := f.path, content := f.content }))

/-- `HttpExportServer.handleExport` (`POST /export`): the body is parsed by
the host `JSON.parse` plus field extraction (the `jsonParse` oracle); on
failure `sendError(400, 'Ungültige JSON-Daten oder Export-Parameter')` is
sent and no export is started, otherwise the parsed settings drive
`performExportAndStream`. -/
def handleExport (jsonParse : String → Option RequestBody) (body : String)
    (vault : List TF) (readNote readAsset readAssetB64 : String → String)
    (canRender : String → Bool) (clockISO clockDE : String)
    (b64decode : String → String) : HttpResponse :=
  match jsonParse body with
  | none => HttpResponse.jsonError 400 "Ungültige JSON-Daten oder Export-Parameter" clockISO
  | some data =>
    performExportAndStream (parseExportSettings data) vault readNote readAsset
      readAssetB64 canRender clockISO clockDE b64decode

end ObsAdoc

namespace ObsAdoc

/-- Claim C1 (code_bug evidence): on a 2-row, 3-column markdown table with a
separator row, `convertTables` does **not** drop the separator row — the
branch meant to skip it is unreachable, so the separator is buffered as an
ordinary row and emitted as a second body row `|--- |--- |---`. -/
theorem convertTables_separator_row_kept :
    convertTables "| A | B | C |\n| --- | --- | --- |\n| 1 | 2 | 3 |" =
      "[cols=\"1,1,1\"]\n|===\n|*A* |*B* |*C*\n|--- |--- |---\n|1 |2 |3\n|===\n" := by
  decide

/-- Claim C2 (code_bug evidence): `convertEmphasis` maps `**bold**` to the
italic span `_bold_`, not to a strong-emphasis span — the first pass turns
`**bold**` into `*bold*`, which the italic pass then consumes. -/
theorem convertEmphasis_double_asterisk_becomes_italic :
    convertEmphasis "**bold**" = "_bold_" := by decide

/-- Claim C6 (counterexample): `convertBlockquotes` is not idempotent — on
the nested-marker line `>>x` the second application rewrites the inner `>`
marker again. -/
theorem convertBlockquotes_not_idempotent :
    convertBlockquotes (convertBlockquotes ">>x") ≠ convertBlockquotes ">>x" := by
  decide

/-! ### Idempotence of `convertHorizontalRules`

The scanner `hrGo` is idempotent: its output consists of the unchanged
non-matching lines together with rule lines rewritten to three apostrophes,
and neither can match `(---|\*\*\*|___)\s*$` again. -/

theorem takeWhile_all_append {p : Char → Bool} :
    ∀ (l : List Char), (∀ c ∈ l, p c = true) →
      ∀ (x : Char) (xs : List Char), p x = false →
        (l ++ x :: xs).takeWhile p = l ∧ (l ++ x :: xs).dropWhile p = x :: xs := by
  intro l
  induction l with
  | nil =>
    intro _ x xs hx
    refine ⟨?_, ?_⟩
    · rw [List.nil_append, List.takeWhile_cons_of_neg (by simp [hx])]
    · rw [List.nil_append, List.dropWhile_cons_of_neg (by simp [hx])]
  | cons c l ih =>
    intro h x xs hx
    have hc : p c = true := h c (List.mem_cons_self c l)
    have hl : ∀ d ∈ l, p d = true := fun d hd => h d (List.mem_cons_of_mem c hd)
    obtain ⟨h1, h2⟩ := ih hl x xs hx
    refine ⟨?_, ?_⟩
    · simp only [List.cons_append, List.takeWhile_cons_of_pos hc, h1]
    · simp only [List.cons_append, List.dropWhile_cons_of_pos hc, h2]

theorem dropWhile_head_false {p : Char → Bool} :
    ∀ (l : List Char) (x : Char) (xs : List Char),
      l.dropWhile p = x :: xs → p x = false := by
  intro l
  induction l with
  | nil => intro x xs h; simp [List.dropWhile] at h
  | cons c l ih =>
    intro x xs h
    by_cases hc : p c = true
    · rw [List.dropWhile_cons_of_pos hc] at h; exact ih x xs h
    · rw [List.dropWhile_cons_of_neg hc] at h
      rw [List.cons.injEq] at h
      obtain ⟨rfl, rfl⟩ := h
      exact Bool.eq_false_iff.mpr hc

theorem hrEnd_some_of_some :
    ∀ (t : List Char) (b : List Char), hrEnd (some b) t ≠ none := by
  intro t
  induction t with
  | nil => intro b; simp [hrEnd]
  | cons c t ih =>
    intro b
    simp only [hrEnd]
    by_cases hc : jsWS c = true
    · rw [if_pos hc]
      by_cases hn : c = '\n'
      · rw [if_pos hn]; exact ih _
      · rw [if_neg hn]; exact ih _
    · rw [if_neg hc]; simp

theorem hrEnd_shape :
    ∀ (t : List Char) (best : Option (List Char)) (l : List Char),
      (best = none ∨ ∃ u, best = some ('\n' :: u)) →
      hrEnd best t = some l → l = [] ∨ ∃ u, l = '\n' :: u := by
  intro t
  induction t with
  | nil =>
    intro best l _ h
    simp only [hrEnd] at h
    injection h with h
    exact Or.inl h.symm
  | cons c t ih =>
    intro best l hbest h
    simp only [hrEnd] at h
    by_cases hc : jsWS c = true
    · rw [if_pos hc] at h
      refine ih _ l ?_ h
      by_cases hn : c = '\n'
      · rw [if_pos hn]; exact Or.inr ⟨t, by rw [hn]⟩
      · rw [if_neg hn]; exact hbest
    · rw [if_neg hc] at h
      rcases hbest with h0 | ⟨u, hu⟩
      · rw [h0] at h; exact Option.noConfusion h
      · rw [hu] at h; injection h with h; exact Or.inr ⟨u, h.symm⟩

theorem hrEnd_length :
    ∀ (t : List Char) (best : Option (List Char)) (l : List Char),
      hrEnd best t = some l → l.length ≤ t.length ∨ best = some l := by
  intro t
  induction t with
  | nil =>
    intro best l h
    simp only [hrEnd] at h
    injection h with h
    left; simp [← h]
  | cons c t ih =>
    intro best l h
    simp only [hrEnd] at h
    by_cases hc : jsWS c = true
    · rw [if_pos hc] at h
      rcases ih _ l h with h1 | h2
      · left; simp only [List.length_cons]; omega
      · by_cases hn : c = '\n'
        · rw [if_pos hn] at h2
          injection h2 with h2
          left; rw [← h2]
        · rw [if_neg hn] at h2; right; exact h2
    · rw [if_neg hc] at h; right; exact h

theorem hrEnd_extend :
    ∀ (xs : List Char), (∀ c ∈ xs, c ≠ '\n') →
      ∀ (ys zs : List Char),
        hrEnd none (xs ++ '\n' :: ys) = none → hrEnd none (xs ++ '\n' :: zs) = none := by
  intro xs
  induction xs with
  | nil =>
    intro _ ys zs h
    exact absurd (show hrEnd (some ('\n' :: ys)) ys = none from h)
      (hrEnd_some_of_some ys _)
  | cons x xs ih =>
    intro hmem ys zs h
    have hx : x ≠ '\n' := hmem x (List.mem_cons_self x xs)
    have hxs : ∀ c ∈ xs, c ≠ '\n' := fun c hc => hmem c (List.mem_cons_of_mem x hc)
    simp only [List.cons_append, hrEnd] at h ⊢
    by_cases hws : jsWS x = true
    · rw [if_pos hws, if_neg hx] at h ⊢
      exact ih hxs ys zs h
    · rw [if_neg hws]

theorem hrMatch_squote : ∀ (l : List Char),
    hrMatch (squote :: squote :: squote :: l) = none := by
  intro l
  simp only [hrMatch]
  rw [if_neg]
  rintro ⟨-, -, h3⟩
  exact absurd h3 (by decide)

theorem hrMatch_line_extend :
    ∀ (line rs₁ rs₂ : List Char), (∀ c ∈ line, c ≠ '\n') →
      hrMatch (line ++ '\n' :: rs₁) = none →
      hrMatch (line ++ '\n' :: rs₂) = none := by
  intro line rs₁ rs₂ hmem h
  rcases line with _ | ⟨d₁, _ | ⟨d₂, _ | ⟨d₃, lr⟩⟩⟩
  · rcases rs₂ with _ | ⟨x, _ | ⟨y, l⟩⟩
    · rfl
    · rfl
    · simp only [List.nil_append, hrMatch]
      rw [if_neg]
      rintro ⟨-, -, h3⟩
      exact absurd h3 (by decide)
  · have hd : d₁ ≠ '\n' := hmem d₁ (by simp)
    rcases rs₂ with _ | ⟨x, l⟩
    · rfl
    · simp only [List.cons_append, List.nil_append, hrMatch]
      rw [if_neg]
      rintro ⟨h1, -, -⟩
      exact hd h1
  · have hd : d₂ ≠ '\n' := hmem d₂ (by simp)
    simp only [List.cons_append, List.nil_append, hrMatch]
    rw [if_neg]
    rintro ⟨-, h2, -⟩
    exact hd h2
  · have hlr : ∀ c ∈ lr, c ≠ '\n' := fun c hc => hmem c (by simp [hc])
    simp only [List.cons_append, hrMatch] at h ⊢
    by_cases hcond : d₁ = d₂ ∧ d₂ = d₃ ∧ hrRuleChar d₁ = true
    · rw [if_pos hcond] at h ⊢
      exact hrEnd_extend lr hlr rs₁ rs₂ h
    · rw [if_neg hcond]

theorem hrMatch_some_shape :
    ∀ (cs rest : List Char), hrMatch cs = some rest →
      rest = [] ∨ ∃ u, rest = '\n' :: u := by
  intro cs rest h
  rcases cs with _ | ⟨a, _ | ⟨b, _ | ⟨c, r⟩⟩⟩
  · exact Option.noConfusion h
  · exact Option.noConfusion h
  · exact Option.noConfusion h
  · simp only [hrMatch] at h
    by_cases hcond : a = b ∧ b = c ∧ hrRuleChar a = true
    · rw [if_pos hcond] at h
      exact hrEnd_shape r none rest (Or.inl rfl) h
    · rw [if_neg hcond] at h
      exact Option.noConfusion h

theorem hrMatch_some_length :
    ∀ (cs rest : List Char), hrMatch cs = some rest → rest.length + 3 ≤ cs.length := by
  intro cs rest h
  rcases cs with _ | ⟨a, _ | ⟨b, _ | ⟨c, r⟩⟩⟩
  · exact Option.noConfusion h
  · exact Option.noConfusion h
  · exact Option.noConfusion h
  · simp only [hrMatch] at h
    by_cases hcond : a = b ∧ b = c ∧ hrRuleChar a = true
    · rw [if_pos hcond] at h
      rcases hrEnd_length r none rest h with h1 | h2
      · simp only [List.length_cons]; omega
      · exact Option.noConfusion h2
    · rw [if_neg hcond] at h
      exact Option.noConfusion h

theorem hrGo_nil : ∀ g, hrGo g [] = [] := by
  intro g; cases g <;> rfl

theorem hrGo_qqq : ∀ g, hrGo (g + 1) [squote, squote, squote] = [squote, squote, squote] := by
  intro g; rfl

/-- At a line start whose line (newline-free `line`) does not begin a rule
match, `hrGo` copies the line and the newline and continues. -/
theorem hrGo_line (g : Nat) (line rest2 : List Char)
    (hmem : ∀ c ∈ line, c ≠ '\n')
    (hm : hrMatch (line ++ '\n' :: rest2) = none) :
    hrGo (g + 1) (line ++ '\n' :: rest2) = line ++ '\n' :: hrGo g rest2 := by
  rcases line with _ | ⟨c, l⟩
  · simp only [List.nil_append] at hm ⊢
    simp only [hrGo, hm]
    rw [List.takeWhile_cons_of_neg (by decide), List.dropWhile_cons_of_neg (by decide)]
    rfl
  · have hc : c ≠ '\n' := hmem c (List.mem_cons_self c l)
    have hl : ∀ x ∈ l, notNl x = true := fun x hx => by
      simp [notNl, hmem x (List.mem_cons_of_mem c hx)]
    obtain ⟨ht, hd⟩ := takeWhile_all_append l hl '\n' rest2 (by decide)
    simp only [List.cons_append] at hm ⊢
    simp only [hrGo, hm]
    rw [List.takeWhile_cons_of_pos (by simp [notNl, hc]),
        List.dropWhile_cons_of_pos (by simp [notNl, hc]), ht, hd]
    rfl

theorem hrGo_reapply :
    ∀ (fuel : Nat) (cs : List Char), cs.length < fuel →
      ∀ (g : Nat), (hrGo fuel cs).length < g →
        hrGo g (hrGo fuel cs) = hrGo fuel cs := by
  intro fuel
  induction fuel with
  | zero => intro cs h; exact absurd h (Nat.not_lt_zero _)
  | succ fuel ih =>
    intro cs hlen g hg
    rcases cs with _ | ⟨c, t⟩
    · rw [show hrGo (fuel + 1) ([] : List Char) = [] from rfl] at hg ⊢
      exact hrGo_nil g
    · rcases hm : hrMatch (c :: t) with _ | rest
      · rcases hd : (c :: t).dropWhile notNl with _ | ⟨r, rs⟩
        · have hout : hrGo (fuel + 1) (c :: t) = c :: t := by
            simp only [hrGo, hm, hd]
          rw [hout] at hg ⊢
          rcases g with _ | g'
          · exact absurd hg (Nat.not_lt_zero _)
          · simp only [hrGo, hm, hd]
        · have hr : r = '\n' := by
            have h0 := dropWhile_head_false (c :: t) r rs hd
            simpa [notNl] using h0
          subst hr
          have hsplit : (c :: t) = (c :: t).takeWhile notNl ++ '\n' :: rs := by
            rw [← hd]
            exact (List.takeWhile_append_dropWhile notNl (c :: t)).symm
          have hmemline : ∀ x ∈ (c :: t).takeWhile notNl, x ≠ '\n' := by
            intro x hx
            have hxp := List.mem_takeWhile_imp hx
            simpa [notNl] using hxp
          have hm' : hrMatch ((c :: t).takeWhile notNl ++ '\n' :: rs) = none := by
            rw [← hsplit]; exact hm
          have hout : hrGo (fuel + 1) (c :: t) =
              (c :: t).takeWhile notNl ++ '\n' :: hrGo fuel rs := by
            conv_lhs => rw [hsplit]
            exact hrGo_line fuel _ rs hmemline hm'
          rw [hout] at hg ⊢
          rcases g with _ | g'
          · exact absurd hg (Nat.not_lt_zero _)
          · have hm₂ : hrMatch ((c :: t).takeWhile notNl ++ '\n' :: hrGo fuel rs) = none :=
              hrMatch_line_extend _ rs _ hmemline hm'
            rw [hrGo_line g' _ _ hmemline hm₂]
            have h1 : (c :: t).length =
                ((c :: t).takeWhile notNl).length + (rs.length + 1) := by
              conv_lhs => rw [hsplit]
              simp [List.length_append]
            have h2 : ((c :: t).takeWhile notNl ++ '\n' :: hrGo fuel rs).length =
                ((c :: t).takeWhile notNl).length + ((hrGo fuel rs).length + 1) := by
              simp [List.length_append]
            rw [ih rs (by omega) g' (by omega)]
      · rcases hrMatch_some_shape _ _ hm with hrest | ⟨rs, hrest⟩
        · subst hrest
          have hout : hrGo (fuel + 1) (c :: t) = [squote, squote, squote] := by
            simp only [hrGo, hm]
          rw [hout] at hg ⊢
          rcases g with _ | g'
          · exact absurd hg (Nat.not_lt_zero _)
          · exact hrGo_qqq g'
        · subst hrest
          have hout : hrGo (fuel + 1) (c :: t) =
              [squote, squote, squote] ++ '\n' :: hrGo fuel rs := by
            simp only [hrGo, hm]
            rfl
          rw [hout] at hg ⊢
          rcases g with _ | g'
          · exact absurd hg (Nat.not_lt_zero _)
          · have hm₂ : hrMatch ([squote, squote, squote] ++ '\n' :: hrGo fuel rs) = none :=
              hrMatch_squote _
            have hqn : ∀ x ∈ [squote, squote, squote], x ≠ '\n' := by
              intro x hx
              simp only [List.mem_cons, List.not_mem_nil, or_false] at hx
              rcases hx with rfl | rfl | rfl <;> decide
            rw [hrGo_line g' _ _ hqn hm₂]
            have hlen3 := hrMatch_some_length _ _ hm
            simp only [List.length_cons] at hlen3 hlen
            have h2 : (([squote, squote, squote] : List Char) ++
                '\n' :: hrGo fuel rs).length = (hrGo fuel rs).length + 4 := by
              simp [List.length_append]
            rw [ih rs (by omega) g' (by omega)]

/-- `convertHorizontalRules` is idempotent. -/
theorem convertHorizontalRules_idem (s : String) :
    convertHorizontalRules (convertHorizontalRules s) = convertHorizontalRules s :=
  congrArg String.mk
    (hrGo_reapply (s.data.length + 1) s.data (Nat.lt_succ_self _)
      ((hrGo (s.data.length + 1) s.data).length + 1) (Nat.lt_succ_self _))

/-- Claim C6 (amended): of the three stage-11 rules named by the claim, the
inline-code rule (the identity) and the horizontal-rule rule are idempotent
for every input, but the blockquote rule is not: a line beginning `>>` is
rewritten again by a second application. -/
theorem stage11_idempotence_amended :
    (∀ s : String, convertInlineCode (convertInlineCode s) = convertInlineCode s) ∧
    (∀ s : String, convertHorizontalRules (convertHorizontalRules s) = convertHorizontalRules s) ∧
    convertBlockquotes (convertBlockquotes ">>x") ≠ convertBlockquotes ">>x" :=
  ⟨fun _ => rfl, convertHorizontalRules_idem, by decide⟩

/-! ### Claim C3: tags inside code fences -/

set_option maxRecDepth 100000 in
/-- Claim C3 (counterexample): the tag stage runs before fence conversion
and does not protect fence bodies — for a document whose fenced code block
contains `#include`, the converted output's source block carries the
rewritten `[.tag]#include#`, not the unchanged token. -/
theorem tags_rewritten_inside_code_fence :
    convertMarkdownToAsciiDoc ⟨"vault-export", true, false, "asciidoc"⟩ (fun _ => false)
        "```c\n#include <x>\n```" "n.md" =
      "= n\n:doctype: article\n:toc: left\n:toclevels: 3\n:sectlinks:\n:sectanchors:\n:source-highlighter: highlight.js\n:stem: latexmath\n\n[source,c]\n----\n[.tag]#include# <x>\n----" ∧
    convertMarkdownToAsciiDoc ⟨"vault-export", true, false, "asciidoc"⟩ (fun _ => false)
        "```c\n#include <x>\n```" "n.md" ≠
      "= n\n:doctype: article\n:toc: left\n:toclevels: 3\n:sectlinks:\n:sectanchors:\n:source-highlighter: highlight.js\n:stem: latexmath\n\n[source,c]\n----\n#include <x>\n----" := by
  decide

set_option maxRecDepth 100000 in
/-- Claim C3 (amended): the tag stage converts inline `#tag` tokens
(alphanumerics, hyphen, underscore, slash) into inline-styled spans, and —
running before fence conversion, which does not re-protect fence bodies —
it also rewrites `#`-prefixed tokens inside fenced code blocks: the
`#include` of a fenced block appears as `[.tag]#include#` in the emitted
source block. -/
theorem tags_inside_fence_amended :
    convertObsidianTags "#include" = "[.tag]#include#" ∧
    containsSub (convertMarkdownToAsciiDoc ⟨"vault-export", true, false, "asciidoc"⟩
        (fun _ => false) "```c\n#include <x>\n```" "n.md")
      "[source,c]\n----\n[.tag]#include# <x>\n----" = true := by
  decide

/-! ### Claim C4: uniqueness of bundle entry paths -/

/-- Claim C4 (counterexample): a vault containing a document named
`index.md` yields a memory bundle whose entry paths are
`[index.adoc, index.adoc]` — the converted document collides with the
generated index entry, so the paths are not pairwise distinct. -/
theorem memory_bundle_duplicate_paths :
    ¬ ((exportVaultToMemory ⟨"vault-export", true, false, "asciidoc"⟩
          [⟨"index.md", "index.md", "md", 0⟩] (fun _ => "x") (fun _ => "")
          (fun _ => "") (fun _ => false) "ts" "de").files.map
        ExportFileData.path).Nodup := by
  decide

/-- The bundle's entry paths are exactly the derived paths: converted
documents (`.md → .adoc`), then asset paths, then `index.adoc`. -/
theorem exportVaultToMemory_map_path (settings : ExportSettings) (vault : List TF)
    (readNote readAsset readAssetB64 : String → String) (canRender : String → Bool)
    (clockISO clockDE : String) :
    (exportVaultToMemory settings vault readNote readAsset readAssetB64 canRender
        clockISO clockDE).files.map ExportFileData.path =
      derivedPaths settings vault readNote := by
  have hfun : ∀ f : VaultFile,
      Option.map ExportedFile.path
          (exportMarkdownFileAsAsciiDocToMemory settings canRender f) =
        (if contentTruthy f.content then some (adocPath f.path) else none) := by
    intro f
    unfold exportMarkdownFileAsAsciiDocToMemory
    by_cases h : contentTruthy f.content <;> simp [h]
  unfold exportVaultToMemory exportAsAsciiDocToMemory derivedPaths
    exportMarkdownFilesAsAsciiDocToMemory copyAllAttachmentsToMemory
    generateIndexAsciiDocToMemory
  by_cases hia : settings.includeAttachments <;>
    simp [hia, List.map_map, List.map_append, List.map_filterMap, hfun,
      Function.comp_def]

/-- Claim C4 (amended): a memory bundle's entry paths are exactly the
derived target paths, and they are pairwise distinct whenever those
derived paths are pairwise distinct; a vault holding `index.md`, or both a
document `note.md` and an asset `note.adoc`, violates the side condition
and produces duplicate paths. -/
theorem memory_bundle_paths_unique (settings : ExportSettings) (vault : List TF)
    (readNote readAsset readAssetB64 : String → String) (canRender : String → Bool)
    (clockISO clockDE : String)
    (h : (derivedPaths settings vault readNote).Nodup) :
    ((exportVaultToMemory settings vault readNote readAsset readAssetB64 canRender
        clockISO clockDE).files.map ExportFileData.path =
      derivedPaths settings vault readNote) ∧
    ((exportVaultToMemory settings vault readNote readAsset readAssetB64 canRender
        clockISO clockDE).files.map ExportFileData.path).Nodup := by
  have hp := exportVaultToMemory_map_path settings vault readNote readAsset
    readAssetB64 canRender clockISO clockDE
  exact ⟨hp, hp ▸ h⟩

/-- Witness for C4 (amended) at a one-document vault. -/
theorem memory_bundle_paths_unique_witness :
    (derivedPaths ⟨"vault-export", true, false, "asciidoc"⟩
        [⟨"a.md", "a.md", "md", 0⟩] (fun _ => "t")).Nodup ∧
    ((exportVaultToMemory ⟨"vault-export", true, false, "asciidoc"⟩
        [⟨"a.md", "a.md", "md", 0⟩] (fun _ => "t") (fun _ => "") (fun _ => "")
        (fun _ => false) "ts" "de").files.map ExportFileData.path).Nodup :=
  ⟨by decide,
   (memory_bundle_paths_unique ⟨"vault-export", true, false, "asciidoc"⟩
      [⟨"a.md", "a.md", "md", 0⟩] (fun _ => "t") (fun _ => "") (fun _ => "")
      (fun _ => false) "ts" "de" (by decide)).2⟩

/-! ### Claim C5: the generated index -/

/-- Claim C5 (counterexample): a markdown file whose read content is empty
is skipped by the document exporter in both modes — no entry is produced —
yet the shared file-list generator still lists it, so the generated index
does not list exactly the converted documents. -/
theorem index_lists_skipped_document :
    (exportMarkdownFilesAsAsciiDocToMemory ⟨"vault-export", true, false, "asciidoc"⟩
        (fun _ => false)
        (getVaultStructure [⟨"a.md", "a.md", "md", 0⟩] (fun _ => "")) = []) ∧
    (exportMarkdownFilesAsAsciiDoc ⟨"../vault-export", true, false, "asciidoc"⟩
        (fun _ => false) "../vault-export"
        (getVaultStructure [⟨"a.md", "a.md", "md", 0⟩] (fun _ => "")) = []) ∧
    generateAsciiDocFileList (getVaultStructure [⟨"a.md", "a.md", "md", 0⟩]
        (fun _ => "")) = "* xref:a.adoc[a]" := by
  decide

/-- Claim C5 (amended): in every export run — filesystem or memory mode —
the generated index entry is produced last; its file list is generated
from every markdown document of the snapshot, including documents skipped
for absent or empty content, and never from assets; every document that
was actually converted appears among the listed targets (in filesystem
mode at its listed relative target joined under the resolved export
root). -/
theorem index_generated_last (settings : ExportSettings) (vault : List TF)
    (readNote readAsset readAssetB64 : String → String) (canRender : String → Bool)
    (clockDE : String) :
    ((exportAsAsciiDocToMemory settings canRender vault readAsset readAssetB64 clockDE
        (getVaultStructure vault readNote)).getLast? =
      some (generateIndexAsciiDocToMemory (getVaultStructure vault readNote) clockDE)) ∧
    ((exportVault settings canRender vault readNote clockDE).getLast? =
      some (generateIndexAsciiDoc
        { settings with exportPath := resolveExportPath settings.exportPath }
        (getVaultStructure vault readNote) clockDE)) ∧
    (generateAsciiDocFileList (getVaultStructure vault readNote) =
      joinWith "\n" (((getVaultStructure vault readNote).filter
        (fun f => f.isMarkdown)).map (fun f =>
          "* xref:" ++ adocPath f.path ++ "[" ++ jsReplaceFirst f.name ".md" "" ++ "]"))) ∧
    ((exportMarkdownFilesAsAsciiDocToMemory settings canRender
        (getVaultStructure vault readNote)).map ExportedFile.path).all
      (fun p => p ∈ ((getVaultStructure vault readNote).filter
        (fun f => f.isMarkdown)).map (fun f => adocPath f.path)) = true ∧
    ((exportMarkdownFilesAsAsciiDoc
        { settings with exportPath := resolveExportPath settings.exportPath }
        canRender (resolveExportPath settings.exportPath)
        (getVaultStructure vault readNote)).map ExportedFile.path).all
      (fun p => (((getVaultStructure vault readNote).filter
          (fun f => f.isMarkdown)).map (fun f => adocPath f.path)).any
        (fun q => p == joinPath (resolveExportPath settings.exportPath) q)) = true := by
  refine ⟨?_, ?_, rfl, ?_, ?_⟩
  · unfold exportAsAsciiDocToMemory
    rw [List.getLast?_concat]
  · unfold exportVault exportAsAsciiDoc
    rw [List.getLast?_concat]
  · rw [List.all_eq_true]
    intro p hp
    rw [List.mem_map] at hp
    obtain ⟨e, he, rfl⟩ := hp
    unfold exportMarkdownFilesAsAsciiDocToMemory at he
    rw [List.mem_filterMap] at he
    obtain ⟨f, hf, hg⟩ := he
    unfold exportMarkdownFileAsAsciiDocToMemory at hg
    by_cases hc : contentTruthy f.content
    · rw [if_pos hc] at hg
      injection hg with hg
      rw [decide_eq_true_eq, ← hg]
      exact List.mem_map.mpr ⟨f, hf, rfl⟩
    · rw [if_neg hc] at hg
      exact Option.noConfusion hg
  · rw [List.all_eq_true]
    intro p hp
    rw [List.mem_map] at hp
    obtain ⟨e, he, rfl⟩ := hp
    unfold exportMarkdownFilesAsAsciiDoc at he
    rw [List.mem_filterMap] at he
    obtain ⟨f, hf, hg⟩ := he
    unfold exportMarkdownFileAsAsciiDoc at hg
    by_cases hc : contentTruthy f.content
    · rw [if_pos hc] at hg
      injection hg with hg
      rw [List.any_eq_true]
      refine ⟨adocPath f.path, List.mem_map.mpr ⟨f, hf, rfl⟩, ?_⟩
      rw [beq_iff_eq, ← hg]
    · rw [if_neg hc] at hg
      exact Option.noConfusion hg

/-! ### Claim C7: export path resolution -/

/-- The source recognizer agrees with the specification's three absolute
forms. -/
theorem isAbsolutePath_eq_spec (p : String) :
    isAbsolutePath p = specRecognizedAbsolute p := by
  obtain ⟨l⟩ := p
  rcases l with _ | ⟨a, _ | ⟨b, _ | ⟨c, r⟩⟩⟩ <;>
    rw [Bool.eq_iff_iff] <;>
    simp [isAbsolutePath, specRecognizedAbsolute, strStartsWith, driveLetterTest,
      List.isPrefixOf, isAsciiLetter,
      show "/".data = ['/'] from rfl, show "\\\\".data = ['\\', '\\'] from rfl] <;>
    tauto

/-- Claim C7: a target location not recognized as absolute (no Unix
leading slash, no drive-letter-plus-separator prefix, no UNC
double-backslash prefix) resolves to `../` prefixed to the input; a target
recognized as absolute in one of those three forms resolves to itself. -/
theorem resolveExportPath_spec (p : String) :
    (specRecognizedAbsolute p = false → resolveExportPath p = "../" ++ p) ∧
    (specRecognizedAbsolute p = true → resolveExportPath p = p) := by
  constructor <;> intro hs <;>
    simp [resolveExportPath, isAbsolutePath_eq_spec, hs]

/-- Witness for C7 at the concrete inputs `out`, `/abs`, `C:\out` and a
UNC path. -/
theorem resolveExportPath_spec_witness :
    resolveExportPath "out" = "../" ++ "out" ∧
    resolveExportPath "/abs" = "/abs" ∧
    resolveExportPath "C:\\out" = "C:\\out" ∧
    resolveExportPath "\\\\srv\\s" = "\\\\srv\\s" :=
  ⟨(resolveExportPath_spec "out").1 (by decide),
   (resolveExportPath_spec "/abs").2 (by decide),
   (resolveExportPath_spec "C:\\out").2 (by decide),
   (resolveExportPath_spec "\\\\srv\\s").2 (by decide)⟩

/-! ### Claim C8: request-to-settings parsing defaults -/

/-- Claim C8: for the JSON body path, an absent `exportPath` yields the
fixed default folder name, `includeAttachments` is true iff the field is
not literally `false`, and `renderDiagrams` is true iff the field is
literally `true`; for the query-string path the two Booleans are true iff
the parameter is exactly the string `"true"` (false otherwise or when
absent). -/
theorem export_settings_defaults (data : RequestBody) (q : ExportQuery) :
    (data.exportPath = none → (parseExportSettings data).exportPath = "vault-export") ∧
    ((parseExportSettings data).includeAttachments = true ↔
      data.includeAttachments ≠ some (Js.bool false)) ∧
    ((parseExportSettings data).renderDiagrams = true ↔
      data.renderDiagrams = some (Js.bool true)) ∧
    ((handleExportGetSettings q).includeAttachments = true ↔
      q.includeAttachments = some "true") ∧
    ((handleExportGetSettings q).renderDiagrams = true ↔
      q.renderDiagrams = some "true") := by
  refine ⟨fun h => ?_, ?_, ?_, ?_, ?_⟩
  · simp [parseExportSettings, jsOrDefault, h]
  · simp [parseExportSettings]
  · simp [parseExportSettings]
  · simp [handleExportGetSettings]
  · simp [handleExportGetSettings]

/-- Witness for C8 at an empty body and an empty query. -/
theorem export_settings_defaults_witness :
    (parseExportSettings ⟨none, none, none⟩).exportPath = "vault-export" ∧
    (parseExportSettings ⟨none, none, none⟩).includeAttachments = true ∧
    (handleExportGetSettings ⟨none, none, none⟩).includeAttachments = false :=
  ⟨(export_settings_defaults ⟨none, none, none⟩ ⟨none, none, none⟩).1 rfl,
   ((export_settings_defaults ⟨none, none, none⟩ ⟨none, none, none⟩).2.1).mpr
     (by decide),
   by decide⟩

/-! ### Claim C9: malformed JSON body on POST /export -/

/-- Claim C9: a `POST /export` whose body fails JSON parsing makes the
handler send `sendError(400, ...)` — a status-400 JSON payload carrying an
error message and a timestamp; the result is not a streamed archive, so no
export run starts and no archive bytes are written. -/
theorem handleExport_malformed_json (jsonParse : String → Option RequestBody)
    (body : String) (vault : List TF)
    (readNote readAsset readAssetB64 : String → String) (canRender : String → Bool)
    (clockISO clockDE : String) (b64decode : String → String)
    (h : jsonParse body = none) :
    handleExport jsonParse body vault readNote readAsset readAssetB64 canRender
        clockISO clockDE b64decode =
      HttpResponse.jsonError 400 "Ungültige JSON-Daten oder Export-Parameter" clockISO ∧
    ∀ entries, handleExport jsonParse body vault readNote readAsset readAssetB64
        canRender clockISO clockDE b64decode ≠ HttpResponse.stream entries := by
  unfold handleExport
  rw [h]
  exact ⟨rfl, fun _ hc => HttpResponse.noConfusion hc⟩

/-- Witness for C9 with a parser that rejects the body. -/
theorem handleExport_malformed_json_witness :
    handleExport (fun _ => none) "not json" [] id id id (fun _ => false) "ts" "de" id =
      HttpResponse.jsonError 400 "Ungültige JSON-Daten oder Export-Parameter" "ts" :=
  (handleExport_malformed_json (fun _ => none) "not json" [] id id id (fun _ => false)
    "ts" "de" id rfl).1

/-! ### Claim C10: memory export ignores the export path -/

/-- Claim C10: the memory-mode export ignores `exportPath` entirely — for
the same vault snapshot, storage/renderer oracles and clock, two settings
values that differ only in `exportPath` produce identical file-entry lists
(same paths, contents and kinds); entry paths stay vault-relative and are
never resolved against the export path. -/
theorem exportVaultToMemory_ignores_exportPath (settings : ExportSettings) (p : String)
    (vault : List TF) (readNote readAsset readAssetB64 : String → String)
    (canRender : String → Bool) (clockISO clockDE : String) :
    (exportVaultToMemory { settings with exportPath := p } vault readNote readAsset
        readAssetB64 canRender clockISO clockDE).files =
      (exportVaultToMemory settings vault readNote readAsset readAssetB64 canRender
        clockISO clockDE).files := by
  obtain ⟨ep, ia, rd, fm⟩ := settings
  rfl

end ObsAdoc
